import Mathlib

/-!
Shallow embedding of the core engine of `fvrs` (crate `fvrs-core`,
`src/crates/fvrs-core/src/lib.rs`) and verification of the frozen claims
about it.  Byte contents are modelled as `List Nat` (each entry a byte
value), paths and names as `String`, and wall-clock instants as natural
numbers counting milliseconds.  External library functions that the crate
merely calls (the cryptographic digest cores, the compiled regex matcher,
the glob matcher, `fs::metadata`, `fs::read_to_string`, and the directory
walker's output) are passed in as explicit function or list parameters;
everything the crate itself computes is embedded concretely.
-/

namespace Fvrs

/-- Error type mirroring `FsError` in the source (payloads collapsed to the
message strings the source stores). -/
inductive FsError where
  | Io (msg : String)
  | InvalidPath (msg : String)
  | FsEvent (msg : String)
  | NotSupported (msg : String)
  | InvalidRegex (msg : String)
  | Search (msg : String)
  | Permission (msg : String)
  | Hash (msg : String)
  | Comparison (msg : String)
  | Monitoring (msg : String)
  | Serialization (msg : String)
deriving DecidableEq, Repr

/-- Event type for file system monitoring, mirroring `FsEventType`. -/
inductive FsEventType where
  | Create
  | Modify
  | Remove
  | Rename
  | Access
  | Metadata
deriving DecidableEq, Repr

/-- File system event, mirroring `FsEvent`.  The `DateTime<Local>` timestamp
is modelled as milliseconds since an arbitrary origin. -/
structure FsEvent where
  event_type : FsEventType
  path : String
  timestamp : Nat
  metadata : List (String × String)
deriving DecidableEq, Repr

/-- Monitoring history, mirroring `MonitoringHistory`.  The `VecDeque` is a
list whose head is the front of the deque. -/
structure MonitoringHistory where
  events : List FsEvent
  max_events : Nat
deriving DecidableEq, Repr

/-- `MonitoringHistory::new`: empty event buffer with the given capacity. -/
def MonitoringHistory.new (max_events : Nat) : MonitoringHistory :=
  { events := [], max_events := max_events }

/-- `MonitoringHistory::add_event`: if the buffer already holds at least
`max_events` events, pop the front (a no-op on an empty deque, exactly as
`VecDeque::pop_front`), then push the new event at the back. -/
def MonitoringHistory.add_event (h : MonitoringHistory) (event : FsEvent) :
    MonitoringHistory :=
  let evs := if h.events.length ≥ h.max_events then h.events.drop 1 else h.events
  { h with events := evs ++ [event] }

/-- Adding a whole sequence of events in order. -/
def MonitoringHistory.add_all (h : MonitoringHistory) (es : List FsEvent) :
    MonitoringHistory :=
  es.foldl MonitoringHistory.add_event h

/-- A concrete sample event used for closed-form evaluations. -/
def sampleEvent : FsEvent :=
  { event_type := .Modify, path := "f.txt", timestamp := 0, metadata := [] }

/-! ## Hash engine -/

/-- Hash algorithm selector, mirroring `HashAlgorithm`. -/
inductive HashAlgorithm where
  | MD5
  | SHA1
  | SHA256
  | SHA512
  | BLAKE3
  | RIPEMD160
deriving DecidableEq, Repr

/-- Hash result, mirroring `HashResult`.  `time_ms` is wall-clock elapsed
time in the source; the model records 0 since wall-clock time is not
modelled. -/
structure HashResult where
  algorithm : HashAlgorithm
  hash : String
  size : Nat
  time_ms : Nat
deriving DecidableEq, Repr

/-- One lower-case hexadecimal digit, as produced by the `hex` crate. -/
def hexDigitChar (n : Nat) : Char :=
  if n < 10 then Char.ofNat (48 + n) else Char.ofNat (87 + n)

/-- `hex::encode` of one byte: two lower-case hexadecimal digits.  Byte
values are reduced mod 256 (the source operates on `u8`). -/
def hexEncodeByte (b : Nat) : List Char :=
  [hexDigitChar (b % 256 / 16), hexDigitChar (b % 256 % 16)]

/-- `hex::encode`: lower-case hexadecimal rendering of a byte sequence. -/
def hexEncode (bs : List Nat) : String :=
  String.mk ((bs.map hexEncodeByte).flatten)

/-- `FileSystem::calculate_hash`, given the file's bytes.  The cryptographic
digest cores live in external crates (`md5`, `sha1`, `sha2`, `blake3`,
`ripemd`); they are passed in as `digestFn`, mapping the selected algorithm
and the file's bytes to the raw digest bytes.  The source hex-encodes the
digest and records the file size from metadata (= the byte count). -/
def calculate_hash (digestFn : HashAlgorithm → List Nat → List Nat)
    (algorithm : HashAlgorithm) (content : List Nat) : HashResult :=
  { algorithm := algorithm
    hash := hexEncode (digestFn algorithm content)
    size := content.length
    time_ms := 0 }

/-- `FileSystem::verify_hash`: recompute the digest and compare the
hexadecimal strings with `==` (exact, case-sensitive `String` equality). -/
def verify_hash (digestFn : HashAlgorithm → List Nat → List Nat)
    (content : List Nat) (expected_hash : String)
    (algorithm : HashAlgorithm) : Bool :=
  (calculate_hash digestFn algorithm content).hash == expected_hash

/-- ASCII upper-casing of one character (models `str::to_uppercase` on the
ASCII alphabet hex digests are drawn from). -/
def asciiUpperChar (c : Char) : Char :=
  if 'a' ≤ c ∧ c ≤ 'z' then Char.ofNat (c.toNat - 32) else c

/-- Upper-case a whole string. -/
def rustToUppercase (s : String) : String :=
  String.mk (s.toList.map asciiUpperChar)

/-- Is this character a lower-case hexadecimal digit? -/
def isLowerHexChar (c : Char) : Bool :=
  if ('0' ≤ c ∧ c ≤ '9') ∨ ('a' ≤ c ∧ c ≤ 'f') then true else false

/-! ## Monitoring filter -/

/-- Monitoring filter, mirroring `MonitoringFilter`.  The `HashSet` fields
are modelled as lists (membership is all the code uses). -/
structure MonitoringFilter where
  include_patterns : List String
  exclude_patterns : List String
  event_types : List FsEventType
  min_size : Option Nat
  max_size : Option Nat
  extensions : List String
deriving DecidableEq, Repr

/-- Index of the last `'.'` in a character list, if any. -/
def lastIndexOfDot (cs : List Char) : Option Nat :=
  match cs.reverse.findIdx? (· = '.') with
  | none => none
  | some j => some (cs.length - 1 - j)

/-- `Path::extension` on a file name: the portion after the last `'.'`,
or none when there is no `'.'` or the only `'.'` is the leading character
(Rust's hidden-file rule). -/
def pathExtension (name : String) : Option String :=
  match lastIndexOfDot name.toList with
  | none => none
  | some i => if i = 0 then none else some (String.mk (name.toList.drop (i + 1)))

/-- Characters of the file-name component: everything after the last
`'/'`. -/
def fileNameAux : List Char → List Char → List Char
  | [], acc => acc.reverse
  | c :: cs, acc =>
      if c = '/' then fileNameAux cs [] else fileNameAux cs (c :: acc)

/-- File-name component of a path (the part after the last `'/'`). -/
def pathFileName (p : String) : String :=
  String.mk (fileNameAux p.toList [])

/-- `Path::extension` on a whole path: the extension of its file name. -/
def pathExtensionOfPath (p : String) : Option String :=
  pathExtension (pathFileName p)

/-- `MonitoringFilter::matches`.  `globMatch pat path` stands for
`glob::Pattern::new(pat).map(|p| p.matches(path)).unwrap_or(false)` from the
external `glob` crate. -/
def MonitoringFilter.matches (globMatch : String → String → Bool)
    (f : MonitoringFilter) (path : String) : Bool :=
  if !f.include_patterns.isEmpty &&
      !(f.include_patterns.any (fun pat => globMatch pat path)) then
    false
  else if f.exclude_patterns.any (fun pat => globMatch pat path) then
    false
  else if !f.extensions.isEmpty then
    match pathExtensionOfPath path with
    | some ext => if !f.extensions.contains ext then false else true
    | none => true
  else
    true

/-- A glob matcher that matches nothing, for closed evaluations. -/
def noGlob : String → String → Bool := fun _ _ => false

/-! ## Search engine and listing -/

/-- File entry, mirroring `FileEntry`.  Timestamps are modelled as
natural numbers. -/
structure FileEntry where
  name : String
  path : String
  size : Nat
  is_dir : Bool
  created : Nat
  modified : Nat
  extension : Option String
deriving DecidableEq, Repr

/-- Search options, mirroring `SearchOptions`. -/
structure SearchOptions where
  pattern : String
  search_contents : Bool
  case_sensitive : Bool
  max_depth : Option Nat
  extensions : Option (List String)
  max_results : Option Nat
deriving DecidableEq, Repr

/-- The success value of `fs::metadata`.  `created()` and `modified()` are
themselves fallible in the source (`metadata.created()?`), so they carry
their own `Except`. -/
structure FileMetadata where
  len : Nat
  is_dir : Bool
  created : Except FsError Nat
  modified : Except FsError Nat

/-- One entry yielded by the `WalkDir` traversal: its file name and full
path, and whether the path is a directory. -/
structure WalkEntry where
  name : String
  path : String
  is_dir : Bool
deriving DecidableEq, Repr

/-- ASCII lower-casing of one character (models `str::to_lowercase` on the
ASCII range). -/
def asciiLowerChar (c : Char) : Char :=
  if 'A' ≤ c ∧ c ≤ 'Z' then Char.ofNat (c.toNat + 32) else c

/-- Lower-case a whole string, as `to_lowercase` does in the source. -/
def rustToLowercase (s : String) : String :=
  String.mk (s.toList.map asciiLowerChar)

/-- The `FileEntry` record the source builds from a walk entry and its
metadata. -/
def mkFileEntry (e : WalkEntry) (m : FileMetadata) (created modified : Nat) :
    FileEntry :=
  { name := e.name
    path := e.path
    size := m.len
    is_dir := m.is_dir
    created := created
    modified := modified
    extension := pathExtensionOfPath e.path }

/-- Has the search-result cap been reached?  (`results.len() >= max_results`
when a cap is configured.) -/
def capReached (options : SearchOptions) (results : List FileEntry) : Bool :=
  match options.max_results with
  | some k => decide (results.length ≥ k)
  | none => false

/-- The extension allow-list check of `search_files`: when an allow-list is
configured and the entry's path has an extension, the entry is skipped
unless the list contains the lower-cased form of that extension.  (Note the
configured list itself is not lower-cased by the source.) -/
def extSkip (options : SearchOptions) (entry : WalkEntry) : Bool :=
  match options.extensions, pathExtensionOfPath entry.path with
  | some exts, some ext => !(exts.contains (rustToLowercase ext))
  | _, _ => false

/-- Building a `FileEntry` for a matched walk entry: `fs::metadata` failure
is swallowed (`if let Ok(metadata)` yields no push), while a failure of
`metadata.created()?` or `metadata.modified()?` aborts the whole call. -/
def entryResult (fsMeta : String → Except FsError FileMetadata)
    (entry : WalkEntry) : Except FsError (Option FileEntry) :=
  match fsMeta entry.path with
  | .error _ => .ok none
  | .ok m =>
    match m.created with
    | .error e => .error e
    | .ok c =>
      match m.modified with
      | .error e => .error e
      | .ok md => .ok (some (mkFileEntry entry m c md))

/-- The walk loop of `FileSystem::search_files`.  `isMatch` stands for the
compiled regex's `is_match` (applied by the source both to file names and,
in content search, to whole file contents); `fsMeta` for `fs::metadata`;
`readToString` for `fs::read_to_string` (`none` when the file cannot be
read as text); the input list for the sequence of entries the depth-capped
`WalkDir` traversal yields.  The push-entry code, duplicated verbatim in
the source's two branches, is factored through `entryResult`. -/
def search_files_loop (options : SearchOptions) (isMatch : String → Bool)
    (fsMeta : String → Except FsError FileMetadata)
    (readToString : String → Option String) :
    List WalkEntry → List FileEntry → Except FsError (List FileEntry)
  | [], results => .ok results
  | entry :: rest, results =>
    if capReached options results then .ok results
    else if extSkip options entry then
      search_files_loop options isMatch fsMeta readToString rest results
    else if isMatch entry.name then
      match entryResult fsMeta entry with
      | .error e => .error e
      | .ok none =>
          search_files_loop options isMatch fsMeta readToString rest results
      | .ok (some fe) =>
          search_files_loop options isMatch fsMeta readToString rest
            (results ++ [fe])
    else if options.search_contents && !entry.is_dir then
      match readToString entry.path with
      | some contents =>
        if isMatch contents then
          match entryResult fsMeta entry with
          | .error e => .error e
          | .ok none =>
              search_files_loop options isMatch fsMeta readToString rest results
          | .ok (some fe) =>
              search_files_loop options isMatch fsMeta readToString rest
                (results ++ [fe])
        else search_files_loop options isMatch fsMeta readToString rest results
      | none => search_files_loop options isMatch fsMeta readToString rest results
    else search_files_loop options isMatch fsMeta readToString rest results

/-- `FileSystem::search_files`, starting from an empty result vector.
Regex compilation (whose failure raises `InvalidRegex`) happens before the
loop; `isMatch` models the successfully compiled pattern. -/
def search_files (options : SearchOptions) (isMatch : String → Bool)
    (fsMeta : String → Except FsError FileMetadata)
    (readToString : String → Option String) (walk : List WalkEntry) :
    Except FsError (List FileEntry) :=
  search_files_loop options isMatch fsMeta readToString walk []

/-- `FileSystem::find_files_by_extension`: builds the options
`{ pattern: "\.{ext}$", case_sensitive: false, extensions: Some(vec![ext]) }`
and calls `search_files`.  `isMatch` models the compiled case-insensitive
regex. -/
def find_files_by_extension (isMatch : String → Bool)
    (fsMeta : String → Except FsError FileMetadata)
    (readToString : String → Option String) (extension : String)
    (walk : List WalkEntry) : Except FsError (List FileEntry) :=
  search_files
    { pattern := "\\." ++ extension ++ "$"
      search_contents := false
      case_sensitive := false
      max_depth := none
      extensions := some [extension]
      max_results := none }
    isMatch fsMeta readToString walk

/-- The loop of `FileSystem::list_files` over the entries that survived
`filter_map(|e| e.ok())`: each entry's `fs::metadata` (and its `created()?`
and `modified()?`) is consulted with `?`, so any failure aborts the whole
listing. -/
def list_files_loop (fsMeta : String → Except FsError FileMetadata) :
    List WalkEntry → Except FsError (List FileEntry)
  | [] => .ok []
  | entry :: rest =>
    match fsMeta entry.path with
    | .error e => .error e
    | .ok m =>
      match m.created with
      | .error e => .error e
      | .ok c =>
        match m.modified with
        | .error e => .error e
        | .ok md =>
          match list_files_loop fsMeta rest with
          | .error e => .error e
          | .ok entries => .ok (mkFileEntry entry m c md :: entries)

/-- `FileSystem::list_files`: the depth-1 `WalkDir` traversal yields a
sequence of entries or walk errors (`walk`); `filter_map(|e| e.ok())` keeps
only the successful ones — dropping, in particular, the error produced when
the target path itself cannot be read — and the loop then builds the entry
records. -/
def list_files (walk : List (Except FsError WalkEntry))
    (fsMeta : String → Except FsError FileMetadata) :
    Except FsError (List FileEntry) :=
  list_files_loop fsMeta (walk.filterMap (fun x => x.toOption))

/-- Concrete walk entries for the spec's two-file scenario. -/
def entryATxt : WalkEntry := ⟨"a.txt", "a.txt", false⟩

/-- Second concrete walk entry of the scenario. -/
def entryBTxt : WalkEntry := ⟨"b.txt", "b.txt", false⟩

/-! ## Compare engine

File contents are byte sequences (`List Nat`); newline is byte 10.  The
source's chunked binary reads and `read_line` calls reduce, for ordinary
files, to per-byte and per-line lock-step walks, which is how they are
embedded. -/

/-- Comparison mode, mirroring `ComparisonType`. -/
inductive ComparisonType where
  | Binary
  | Text
  | TextIgnoreWhitespace
  | TextIgnoreCase
deriving DecidableEq, Repr

/-- A recorded difference, mirroring `Difference`.  Text lines are byte
sequences here, matching the byte-level content model. -/
inductive Difference where
  | BinaryDiff (offset : Nat) (left : Nat) (right : Nat)
  | TextDiff (line : Nat) (left : List Nat) (right : List Nat)
  | SizeDiff (left_size : Nat) (right_size : Nat)
  | TypeDiff (left_type : String) (right_type : String)
deriving DecidableEq, Repr

/-- Comparison result, mirroring `ComparisonResult`. -/
structure ComparisonResult where
  identical : Bool
  differences : List Difference
  total_differences : Nat
  time_ms : Nat
deriving DecidableEq, Repr

/-- `compare_binary` from a given absolute offset: the chunked lock-step
loop compares bytes at the same position while both streams still have
data, records a `BinaryDiff` for each mismatch, and stops comparing once
either stream is exhausted. -/
def compare_binary_from : Nat → List Nat → List Nat → List Difference
  | _, [], _ => []
  | _, _ :: _, [] => []
  | offset, l :: ls, r :: rs =>
      (if l ≠ r then [Difference.BinaryDiff offset l r] else [])
        ++ compare_binary_from (offset + 1) ls rs

/-- `FileSystem::compare_binary`, starting at offset 0. -/
def compare_binary (left right : List Nat) : List Difference :=
  compare_binary_from 0 left right

/-- Whitespace bytes recognised by `str::trim` on ASCII input. -/
def isWhitespaceByte (c : Nat) : Bool :=
  c = 9 || c = 10 || c = 11 || c = 12 || c = 13 || c = 32

/-- `str::trim`: strip leading and trailing whitespace. -/
def trimBytes (l : List Nat) : List Nat :=
  ((l.dropWhile isWhitespaceByte).reverse.dropWhile isWhitespaceByte).reverse

/-- `to_lowercase` on one byte (ASCII range). -/
def lowerByte (c : Nat) : Nat :=
  if 65 ≤ c ∧ c ≤ 90 then c + 32 else c

/-- Per-mode line normalisation before the equality test (`trim` for
Text-ignore-whitespace, `to_lowercase` for Text-ignore-case, identity
otherwise), exactly as `compare_text` processes each line. -/
def processLine (comparison_type : ComparisonType) (l : List Nat) : List Nat :=
  match comparison_type with
  | .TextIgnoreWhitespace => trimBytes l
  | .TextIgnoreCase => l.map lowerByte
  | _ => l

/-- `read_line` splitting: each line keeps its terminating newline byte;
a final fragment without a newline is its own line. -/
def readLinesAux : List Nat → List Nat → List (List Nat)
  | [], acc => if acc.isEmpty then [] else [acc.reverse]
  | c :: cs, acc =>
      if c = 10 then ((c :: acc).reverse) :: readLinesAux cs []
      else readLinesAux cs (c :: acc)

/-- All lines of a byte sequence, in `read_line` semantics. -/
def readLines (cs : List Nat) : List (List Nat) :=
  readLinesAux cs []

/-- The line loop of `FileSystem::compare_text`: read one line from each
side per iteration (`read_line` yields the empty string once a side is
exhausted), compare the normalised forms, record the original lines on
mismatch, and count lines from the given 1-based number until both sides
are exhausted. -/
def compare_text_lines (comparison_type : ComparisonType) :
    List (List Nat) → List (List Nat) → Nat → List Difference
  | [], [], _ => []
  | l :: ls, [], n =>
      (if processLine comparison_type l ≠ processLine comparison_type [] then
        [Difference.TextDiff n l []] else [])
        ++ compare_text_lines comparison_type ls [] (n + 1)
  | [], r :: rs, n =>
      (if processLine comparison_type [] ≠ processLine comparison_type r then
        [Difference.TextDiff n [] r] else [])
        ++ compare_text_lines comparison_type [] rs (n + 1)
  | l :: ls, r :: rs, n =>
      (if processLine comparison_type l ≠ processLine comparison_type r then
        [Difference.TextDiff n l r] else [])
        ++ compare_text_lines comparison_type ls rs (n + 1)
  termination_by ls rs _ => ls.length + rs.length

/-- `FileSystem::compare_text` on whole file contents. -/
def compare_text (left right : List Nat) (comparison_type : ComparisonType) :
    List Difference :=
  compare_text_lines comparison_type (readLines left) (readLines right) 1

/-- `FileSystem::compare_files`, given both files' bytes: a `SizeDiff`
first whenever the metadata sizes (byte counts) differ, then the
mode-selected comparison; `identical` is the emptiness of the collected
list and `total_differences` its length, exactly as constructed at the end
of the source function. -/
def compare_files (left right : List Nat)
    (comparison_type : ComparisonType) : ComparisonResult :=
  let sizeDiffs :=
    if left.length ≠ right.length then
      [Difference.SizeDiff left.length right.length]
    else []
  let differences := sizeDiffs ++
    (match comparison_type with
     | .Binary => compare_binary left right
     | _ => compare_text left right comparison_type)
  { identical := differences.isEmpty
    differences := differences
    total_differences := differences.length
    time_ms := 0 }

/-- One entry of an enumerated directory tree for `compare_directories`:
its path relative to the tree root, whether it is a regular file, and its
bytes when it is one. -/
structure TreeEntry where
  rel_path : String
  is_file : Bool
  content : List Nat
deriving DecidableEq, Repr

/-- `FileSystem::compare_directories`, with each side's full `WalkDir`
enumeration given as relative-path entries: a left entry whose relative
path does not exist on the right records a `TypeDiff("file","missing")`;
a pair of files at the same relative path contributes the differences of
`compare_files`; a right entry missing on the left records a
`TypeDiff("missing","file")`. -/
def compare_directories (left right : List TreeEntry)
    (comparison_type : ComparisonType) : ComparisonResult :=
  let d1 := (left.map (fun le =>
      match right.find? (fun re => re.rel_path == le.rel_path) with
      | none => [Difference.TypeDiff "file" "missing"]
      | some re =>
          if le.is_file && re.is_file then
            (compare_files le.content re.content comparison_type).differences
          else [])).flatten
  let d2 := (right.map (fun re =>
      if left.any (fun le => le.rel_path == re.rel_path) then []
      else [Difference.TypeDiff "missing" "file"])).flatten
  let differences := d1 ++ d2
  { identical := differences.isEmpty
    differences := differences
    total_differences := differences.length
    time_ms := 0 }

/-- Flip the case of one ASCII byte: upper-case letters become lower-case
and vice versa; all other bytes are unchanged. -/
def caseFlipByte (c : Nat) : Nat :=
  if 65 ≤ c ∧ c ≤ 90 then c + 32
  else if 97 ≤ c ∧ c ≤ 122 then c - 32
  else c

/-! ## Monitor engine callback -/

/-- The sub-kind of a raw modify notification (`notify::event::ModifyKind`,
payloads dropped — the source only distinguishes the `Name` shape). -/
inductive NotifyModifyKind where
  | any
  | data
  | metadata
  | name
  | other
deriving DecidableEq, Repr

/-- The raw OS notification kind (`notify::EventKind`) as far as the
source's match inspects it. -/
inductive NotifyEventKind where
  | access
  | create
  | modify (k : NotifyModifyKind)
  | remove
  | other
deriving DecidableEq, Repr

/-- A raw notification delivered to the monitoring callback: its kind, its
path list (the source reads `event.paths[0]`), and the `SystemTime::now()`
instant at which the callback processes it, in milliseconds. -/
structure RawEvent where
  kind : NotifyEventKind
  paths : List String
  time : Nat
deriving DecidableEq, Repr

/-- The kind-mapping match of `start_monitoring_with_settings`, in source
arm order: `Create(_)`, `Modify(_)`, `Remove(_)`, then a
`Modify(ModifyKind::Name(_)) => Rename` arm that is unreachable because the
earlier `Modify(_)` arm already captured it, then `Access(_)`, and
`Other => continue` — i.e. the event is dropped, not mapped. -/
def mapEventKind : NotifyEventKind → Option FsEventType
  | .create => some .Create
  | .modify _ => some .Modify
  | .remove => some .Remove
  | .access => some .Access
  | .other => none

/-- Monitoring settings, mirroring `MonitoringSettings`. -/
structure MonitoringSettings where
  path : String
  recursive : Bool
  filter : MonitoringFilter
  max_history : Nat
  debounce_ms : Nat
deriving DecidableEq, Repr

/-- The mutable state owned by the monitoring task: the per-path
`last_event_time` map and the bounded history. -/
structure MonitorState where
  last_event_time : List (String × Nat)
  history : MonitoringHistory
deriving DecidableEq, Repr

/-- `HashMap::get` on the association-list model of `last_event_time`. -/
def assocGet (m : List (String × Nat)) (k : String) : Option Nat :=
  match m.find? (fun p => p.1 == k) with
  | some p => some p.2
  | none => none

/-- `HashMap::insert` on the association-list model. -/
def assocInsert (m : List (String × Nat)) (k : String) (v : Nat) :
    List (String × Nat) :=
  match m with
  | [] => [(k, v)]
  | (k', v') :: rest =>
      if k' == k then (k, v) :: rest else (k', v') :: assocInsert rest k v

/-- The size check of the callback: when `fs::metadata` succeeds, the
length must lie within the configured bounds; a metadata failure skips the
check entirely. -/
def sizeOk (settings : MonitoringSettings) (fsLen : String → Option Nat)
    (path : String) : Bool :=
  match fsLen path with
  | some len =>
      (match settings.filter.min_size with
       | some m => decide (len ≥ m)
       | none => true)
      && (match settings.filter.max_size with
       | some m => decide (len ≤ m)
       | none => true)
  | none => true

/-- One iteration of the receive loop in
`start_monitoring_with_settings`: take the first path of the raw event,
evaluate the filter, map the kind (dropping unmapped kinds), check the
event-kind allow-list and the size bounds, debounce against
`last_event_time` (truncated subtraction models `duration_since` under the
loop's monotone clock), and on acceptance record the new timestamp and
append the event to the bounded history. -/
def processEvent (globMatch : String → String → Bool)
    (fsLen : String → Option Nat) (settings : MonitoringSettings)
    (st : MonitorState) (ev : RawEvent) : MonitorState :=
  let path := ev.paths.headD ""
  if !(settings.filter.matches globMatch path) then st
  else
    match mapEventKind ev.kind with
    | none => st
    | some event_type =>
      if !(settings.filter.event_types.contains event_type) then st
      else if !(sizeOk settings fsLen path) then st
      else
        let accept : MonitorState :=
          { last_event_time := assocInsert st.last_event_time path ev.time
            history := st.history.add_event
              { event_type := event_type, path := path,
                timestamp := ev.time, metadata := [] } }
        match assocGet st.last_event_time path with
        | some last_time =>
            if ev.time - last_time < settings.debounce_ms then st else accept
        | none => accept

/-- The receive loop over a whole sequence of raw events. -/
def processEvents (globMatch : String → String → Bool)
    (fsLen : String → Option Nat) (settings : MonitoringSettings)
    (st : MonitorState) (evs : List RawEvent) : MonitorState :=
  evs.foldl (processEvent globMatch fsLen settings) st

/-- The state the monitoring session starts from: empty timestamp map and
a fresh history of the configured capacity. -/
def monitorInit (settings : MonitoringSettings) : MonitorState :=
  ⟨[], MonitoringHistory.new settings.max_history⟩

/-- A filter that accepts every path and every event kind. -/
def permissiveFilter : MonitoringFilter :=
  ⟨[], [], [.Create, .Modify, .Remove, .Rename, .Access, .Metadata],
    none, none, []⟩

/-- Settings built on the permissive filter, for closed evaluations. -/
def permissiveSettings : MonitoringSettings :=
  ⟨"dir", true, permissiveFilter, 10, 0⟩

/-- A raw notification whose kind matches none of the known categories. -/
def evOther : RawEvent := ⟨.other, ["dir/f.txt"], 5⟩

/-- Settings with a 100 ms debounce window on the permissive filter. -/
def debounceSettings : MonitoringSettings :=
  ⟨"dir", true, permissiveFilter, 10, 100⟩

end Fvrs

namespace Fvrs

/-- Capacity is preserved by `add_event`. -/
theorem add_event_max (h : MonitoringHistory) (e : FsEvent) :
    (h.add_event e).max_events = h.max_events := rfl

/-- One `add_event` step, described on the underlying list: the new buffer is
the old buffer with the event appended, minus the front element when the old
buffer was full. -/
theorem add_event_events (h : MonitoringHistory) (e : FsEvent) :
    (h.add_event e).events =
      (if h.events.length ≥ h.max_events then h.events.drop 1 else h.events)
        ++ [e] := rfl

/-- Main buffer lemma: starting from any buffer content `l` of length at most
the capacity `N ≥ 1`, folding a list of events `es` through `add_event`
leaves exactly the last `N` elements of `l ++ es`. -/
theorem add_all_drop (N : Nat) (hN : 1 ≤ N) (es : List FsEvent) :
    ∀ (l : List FsEvent), l.length ≤ N →
      (MonitoringHistory.add_all ⟨l, N⟩ es).events =
        (l ++ es).drop ((l.length + es.length) - N) := by
  induction es with
  | nil =>
      intro l hl
      have h0 : l.length - N = 0 := by omega
      simp [MonitoringHistory.add_all, h0]
  | cons e es ih =>
      intro l hl
      have hunfold : MonitoringHistory.add_all ⟨l, N⟩ (e :: es) =
          MonitoringHistory.add_all (MonitoringHistory.add_event ⟨l, N⟩ e) es := rfl
      by_cases hfull : N ≤ l.length
      · -- buffer full: front evicted
        have hlen : l.length = N := le_antisymm hl hfull
        have hstep : MonitoringHistory.add_event ⟨l, N⟩ e =
            ⟨l.drop 1 ++ [e], N⟩ := by
          simp [MonitoringHistory.add_event, hfull]
        have hlen2 : (l.drop 1 ++ [e]).length ≤ N := by
          simp [List.length_drop]; omega
        have ihx := ih (l.drop 1 ++ [e]) hlen2
        rw [hunfold, hstep, ihx]
        have hassoc : l.drop 1 ++ [e] ++ es = (l ++ e :: es).drop 1 := by
          cases l with
          | nil => simp at hlen; omega
          | cons a l' => simp
        rw [hassoc, List.drop_drop]
        congr 1
        simp [List.length_drop]
        omega
      · -- buffer not yet full: plain append
        have hstep : MonitoringHistory.add_event ⟨l, N⟩ e =
            ⟨l ++ [e], N⟩ := by
          simp only [MonitoringHistory.add_event]
          rw [if_neg hfull]
        have hlen2 : (l ++ [e]).length ≤ N := by
          simp; omega
        have ihx := ih (l ++ [e]) hlen2
        rw [hunfold, hstep, ihx]
        have hassoc : l ++ [e] ++ es = l ++ e :: es := by simp
        rw [hassoc]
        congr 1
        simp
        omega

/-- Length bound: with capacity `N ≥ 1` the buffer length never exceeds `N`
after any number of insertions from a start state within bounds. -/
theorem add_all_length_le (N : Nat) (hN : 1 ≤ N) (es : List FsEvent)
    (l : List FsEvent) (hl : l.length ≤ N) :
    (MonitoringHistory.add_all ⟨l, N⟩ es).events.length ≤ N := by
  have h := add_all_drop N hN es l hl
  rw [h]
  simp [List.length_drop]
  omega

/-- C2, counterexample.  With configured capacity `N = 0`, adding a single
event leaves the history holding that event, so its length is `1 > 0`: the
claimed bound "length never exceeds N, including N = 0" fails on the code. -/
theorem c2_counterexample :
    ((MonitoringHistory.new 0).add_event sampleEvent).events = [sampleEvent] ∧
      ¬ ((MonitoringHistory.new 0).add_event sampleEvent).events.length ≤ 0 := by
  constructor
  · rfl
  · decide

/-- C2 (amended to capacities `N ≥ 1`): for every capacity `N ≥ 1` and every
sequence of `M > N` events added in order via `add_event`, the history ends
up holding exactly the last `N` events of the sequence in their original
relative order, and after every prefix of the insertions its length is at
most `N`.  (For `N = 0` the code instead keeps exactly the most recent
event, see the counterexample.) -/
theorem c2_history_last_n (N : Nat) (es : List FsEvent)
    (hN : 1 ≤ N) (_hM : N < es.length) :
    ((MonitoringHistory.new N).add_all es).events = es.drop (es.length - N) ∧
      ∀ k : Nat,
        ((MonitoringHistory.new N).add_all (es.take k)).events.length ≤ N := by
  constructor
  · have h := add_all_drop N hN es [] (by simp)
    simpa using h
  · intro k
    exact add_all_length_le N hN (es.take k) [] (by simp)

/-- Witness for C2's amended theorem at a concrete input: capacity 2,
three events inserted; the stored sequence is the last two events. -/
theorem c2_history_last_n_witness :
    ((MonitoringHistory.new 2).add_all
        [⟨.Create, "a", 0, []⟩, ⟨.Modify, "b", 1, []⟩, ⟨.Remove, "c", 2, []⟩]).events =
      ([⟨.Create, "a", 0, []⟩, ⟨.Modify, "b", 1, []⟩,
        (⟨.Remove, "c", 2, []⟩ : FsEvent)].drop 1) := by
  have h := c2_history_last_n 2
    [⟨.Create, "a", 0, []⟩, ⟨.Modify, "b", 1, []⟩, ⟨.Remove, "c", 2, []⟩]
    (by decide) (by decide)
  exact h.1

/-- Every hex digit of index below 16 renders as a lower-case hex char. -/
theorem hexDigitChar_lower (n : Nat) (h : n < 16) :
    isLowerHexChar (hexDigitChar n) = true := by
  interval_cases n <;> decide

/-- `hex::encode` output consists solely of lower-case hex characters. -/
theorem hexEncode_all_lower (bs : List Nat) :
    (hexEncode bs).toList.all isLowerHexChar = true := by
  show ((bs.map hexEncodeByte).flatten).all isLowerHexChar = true
  induction bs with
  | nil => decide
  | cons b bs ih =>
      have h1 : b % 256 / 16 < 16 := by omega
      have h2 : b % 256 % 16 < 16 := by omega
      simp only [List.map_cons, List.flatten_cons, List.all_append, ih,
        hexEncodeByte, List.all_cons, List.all_nil,
        hexDigitChar_lower _ h1, hexDigitChar_lower _ h2, Bool.and_self,
        Bool.and_true, Bool.true_and]

/-- C1: for any file bytes and any algorithm, `verify_hash` accepts exactly
the digest string produced by `calculate_hash`: the round trip verifies,
acceptance is exact case-sensitive string equality, the produced digest is
all lower-case hexadecimal, and whenever the upper-cased digest differs from
the digest itself verification of the upper-cased form fails. -/
theorem c1_verify_roundtrip (digestFn : HashAlgorithm → List Nat → List Nat)
    (a : HashAlgorithm) (content : List Nat) :
    verify_hash digestFn content (calculate_hash digestFn a content).hash a = true
    ∧ (∀ d : String,
        verify_hash digestFn content d a = true ↔
          d = (calculate_hash digestFn a content).hash)
    ∧ (calculate_hash digestFn a content).hash.toList.all isLowerHexChar = true
    ∧ (rustToUppercase (calculate_hash digestFn a content).hash ≠
          (calculate_hash digestFn a content).hash →
        verify_hash digestFn content
          (rustToUppercase (calculate_hash digestFn a content).hash) a = false) := by
  refine ⟨by simp [verify_hash], ?_, hexEncode_all_lower _, ?_⟩
  · intro d
    simp only [verify_hash, beq_iff_eq]
    exact eq_comm
  · intro hne
    simp only [verify_hash, beq_eq_false_iff_ne, ne_eq]
    exact fun hcontra => hne hcontra.symm

/-- Witness for C1 at a concrete input: the identity digest on the single
byte `0xab` gives digest string "ab"; verification succeeds on "ab" and
fails on its upper-cased form "AB". -/
theorem c1_verify_roundtrip_witness :
    verify_hash (fun _ bs => bs) [171]
        (calculate_hash (fun _ bs => bs) .MD5 [171]).hash .MD5 = true
    ∧ verify_hash (fun _ bs => bs) [171]
        (rustToUppercase (calculate_hash (fun _ bs => bs) .MD5 [171]).hash)
        .MD5 = false := by
  refine ⟨(c1_verify_roundtrip (fun _ bs => bs) .MD5 [171]).1,
    (c1_verify_roundtrip (fun _ bs => bs) .MD5 [171]).2.2.2 ?_⟩
  decide

/-- C10: with a non-empty extension allow-list, include patterns that do not
reject the path and exclude patterns that do not match it, a path with no
extension at all is accepted by `MonitoringFilter::matches`: the allow-list
check only fires when the path has an extension. -/
theorem c10_filter_extensionless (globMatch : String → String → Bool)
    (f : MonitoringFilter) (path : String)
    (_hext : f.extensions ≠ [])
    (hinc : f.include_patterns = [] ∨
      f.include_patterns.any (fun pat => globMatch pat path) = true)
    (hexc : f.exclude_patterns.any (fun pat => globMatch pat path) = false)
    (hnoext : pathExtensionOfPath path = none) :
    f.matches globMatch path = true := by
  unfold MonitoringFilter.matches
  have hincCond : (!f.include_patterns.isEmpty &&
      !(f.include_patterns.any (fun pat => globMatch pat path))) = false := by
    rcases hinc with h | h
    · simp [h]
    · simp [h]
  rw [hincCond, hexc, hnoext]
  simp

/-- Witness for C10: a filter whose allow-list is `["txt"]` accepts the
extension-less path "noext". -/
theorem c10_filter_extensionless_witness :
    MonitoringFilter.matches noGlob
      ⟨[], [], [], none, none, ["txt"]⟩ "noext" = true := by
  exact c10_filter_extensionless noGlob ⟨[], [], [], none, none, ["txt"]⟩
    "noext" (by decide) (Or.inl rfl) rfl (by decide)

/-- C3, failing input.  On a directory holding `a.txt` and `b.txt`,
`find_files_by_extension("TXT")` returns no entries at all — whatever the
compiled regex, the metadata, or the file contents are — because the
allow-list check compares the lower-cased file extension "txt" with the
verbatim configured string "TXT" and skips both files.  The claim (and the
spec's scenario) expects both entries. -/
theorem c3_find_by_extension_case (isMatch : String → Bool)
    (fsMeta : String → Except FsError FileMetadata)
    (readToString : String → Option String) :
    find_files_by_extension isMatch fsMeta readToString "TXT"
      [entryATxt, entryBTxt] = .ok [] := by
  rfl

/-- Invariant of the search loop: starting below the configured cap `k`,
any successful run returns at most `k` results. -/
theorem search_files_loop_length_le (options : SearchOptions)
    (isMatch : String → Bool) (fsMeta : String → Except FsError FileMetadata)
    (readToString : String → Option String) (k : Nat)
    (hk : options.max_results = some k) :
    ∀ (walk : List WalkEntry) (results : List FileEntry),
      results.length ≤ k →
      ∀ res, search_files_loop options isMatch fsMeta readToString walk results
          = .ok res →
        res.length ≤ k := by
  intro walk
  induction walk with
  | nil =>
      intro results hr res h
      rw [search_files_loop] at h
      cases h
      exact hr
  | cons entry rest ih =>
      intro results hr res h
      rw [search_files_loop] at h
      by_cases hcap : capReached options results = true
      · rw [if_pos hcap] at h
        cases h
        exact hr
      · rw [if_neg hcap] at h
        have hlt : results.length < k := by
          unfold capReached at hcap
          rw [hk] at hcap
          simp at hcap
          omega
        by_cases hskip : extSkip options entry = true
        · rw [if_pos hskip] at h
          exact ih results hr res h
        · rw [if_neg hskip] at h
          by_cases hname : isMatch entry.name = true
          · rw [if_pos hname] at h
            rcases her : entryResult fsMeta entry with e | o
            · rw [her] at h; cases h
            · rw [her] at h
              cases o with
              | none => exact ih results hr res h
              | some fe =>
                  exact ih (results ++ [fe]) (by simp; omega) res h
          · rw [if_neg hname] at h
            by_cases hcont : (options.search_contents && !entry.is_dir) = true
            · rw [if_pos hcont] at h
              rcases hread : readToString entry.path with _ | contents
              · rw [hread] at h
                exact ih results hr res h
              · simp only [hread] at h
                by_cases hcm : isMatch contents = true
                · rw [if_pos hcm] at h
                  rcases her : entryResult fsMeta entry with e | o
                  · rw [her] at h; cases h
                  · rw [her] at h
                    cases o with
                    | none => exact ih results hr res h
                    | some fe =>
                        exact ih (results ++ [fe]) (by simp; omega) res h
                · rw [if_neg hcm] at h
                  exact ih results hr res h
            · rw [if_neg hcont] at h
              exact ih results hr res h

/-- C7: when the search configuration caps results at `k`, a successful
`search_files` call returns at most `k` entries, whatever the walked tree,
the pattern, and the file system contents. -/
theorem c7_search_max_results (options : SearchOptions)
    (isMatch : String → Bool) (fsMeta : String → Except FsError FileMetadata)
    (readToString : String → Option String) (walk : List WalkEntry)
    (k : Nat) (hk : options.max_results = some k)
    (res : List FileEntry)
    (h : search_files options isMatch fsMeta readToString walk = .ok res) :
    res.length ≤ k := by
  exact search_files_loop_length_le options isMatch fsMeta readToString k hk
    walk [] (by simp) res h

/-- Witness for C7 at a concrete input: a cap of 1 on a two-entry walk
where every name matches returns exactly one entry, whose length is within
the cap. -/
theorem c7_search_max_results_witness :
    (search_files
        { pattern := "", search_contents := false, case_sensitive := true,
          max_depth := none, extensions := none, max_results := some 1 }
        (fun _ => true)
        (fun _ => .ok { len := 5, is_dir := false,
                        created := .ok 0, modified := .ok 0 })
        (fun _ => none) [entryATxt, entryBTxt]).toOption.map List.length
      = some 1 ∧
    ∀ res, (search_files
        { pattern := "", search_contents := false, case_sensitive := true,
          max_depth := none, extensions := none, max_results := some 1 }
        (fun _ => true)
        (fun _ => .ok { len := 5, is_dir := false,
                        created := .ok 0, modified := .ok 0 })
        (fun _ => none) [entryATxt, entryBTxt] = .ok res) →
      res.length ≤ 1 := by
  constructor
  · rfl
  · intro res h
    exact c7_search_max_results _ _ _ _ _ 1 rfl res h

/-- C4, counterexample.  When the target path itself cannot be read the
depth-1 walk yields exactly one error item; `filter_map(|e| e.ok())` drops
it, and `list_files` returns `Ok` with an empty listing — not an I/O
error as the claim states. -/
theorem c4_counterexample :
    list_files [Except.error (FsError.Io "permission denied")]
        (fun _ => Except.error (FsError.Io "unused")) = .ok [] ∧
    ∀ e : FsError, (Except.ok ([] : List FileEntry) :
        Except FsError (List FileEntry)) ≠ .error e := by
  exact ⟨rfl, fun e h => by cases h⟩

/-- C4 (amended): `list_files` never fails because of the walk itself — a
walk consisting only of errors (in particular an unreadable target path)
yields `Ok([])` — whereas a surviving child entry whose metadata cannot
be read makes the whole call fail with that single typed error. -/
theorem c4_list_files_amended :
    (∀ (errs : List FsError) (fsMeta : String → Except FsError FileMetadata),
        list_files (errs.map Except.error) fsMeta = .ok []) ∧
    (∀ (entry : WalkEntry) (walk : List (Except FsError WalkEntry))
        (fsMeta : String → Except FsError FileMetadata) (e : FsError),
        fsMeta entry.path = .error e →
        list_files (.ok entry :: walk) fsMeta = .error e) := by
  constructor
  · intro errs fsMeta
    have hempty : (errs.map Except.error).filterMap
        (fun x => Except.toOption x) = ([] : List WalkEntry) := by
      induction errs with
      | nil => rfl
      | cons e es ih => simp [Except.toOption, ih]
    simp [list_files, hempty, list_files_loop]
  · intro entry walk fsMeta e he
    simp [list_files, Except.toOption, list_files_loop, he]

/-- Witness for C4's amended theorem: a readable child whose metadata read
fails with an I/O error aborts the listing with exactly that error. -/
theorem c4_list_files_amended_witness :
    list_files [.ok entryATxt]
        (fun _ => Except.error (FsError.Io "denied")) =
      .error (FsError.Io "denied") := by
  exact c4_list_files_amended.2 entryATxt []
    (fun _ => Except.error (FsError.Io "denied")) (FsError.Io "denied") rfl

/-- Lower-casing absorbs a case flip: a flipped byte lower-cases to the
same byte as the original. -/
theorem lowerByte_caseFlip (c : Nat) :
    lowerByte (caseFlipByte c) = lowerByte c := by
  unfold lowerByte caseFlipByte
  split_ifs <;> omega

/-- Case flipping never creates or destroys a newline byte. -/
theorem caseFlipByte_ne_ten (c : Nat) (hc : c ≠ 10) :
    caseFlipByte c ≠ 10 := by
  unfold caseFlipByte
  split_ifs <;> omega

/-- Normalisation for Text-ignore-case is invariant under a case flip of
the line. -/
theorem processLine_caseflip (a : List Nat) :
    processLine .TextIgnoreCase (a.map caseFlipByte) =
      processLine .TextIgnoreCase a := by
  simp only [processLine, List.map_map]
  exact List.map_congr_left (fun c _ => lowerByte_caseFlip c)

/-- `read_line` splitting commutes with a byte-wise case flip, since the
flip fixes the newline byte. -/
theorem readLinesAux_map (cs : List Nat) :
    ∀ acc : List Nat,
      readLinesAux (cs.map caseFlipByte) (acc.map caseFlipByte) =
        (readLinesAux cs acc).map (List.map caseFlipByte) := by
  induction cs with
  | nil =>
      intro acc
      cases acc with
      | nil => rfl
      | cons a l => simp [readLinesAux]
  | cons c cs ih =>
      intro acc
      by_cases hc : c = 10
      · subst hc
        have ih0 := ih []
        simp only [List.map_nil] at ih0
        have h10 : caseFlipByte 10 = 10 := by decide
        simp [readLinesAux, ih0, h10, List.map_reverse]
      · have h10 : ¬ caseFlipByte c = 10 := caseFlipByte_ne_ten c hc
        simp only [List.map_cons, readLinesAux, if_neg hc, if_neg h10]
        have ihc := ih (c :: acc)
        simpa using ihc

/-- Whole-file version of `readLinesAux_map`. -/
theorem readLines_map (cs : List Nat) :
    readLines (cs.map caseFlipByte) =
      (readLines cs).map (List.map caseFlipByte) := by
  have h := readLinesAux_map cs []
  simpa [readLines] using h

/-- The text-compare loop records nothing in Text-ignore-case mode when the
right side is the byte-wise case flip of the left side. -/
theorem compare_text_lines_caseflip (ll : List (List Nat)) :
    ∀ n : Nat,
      compare_text_lines .TextIgnoreCase ll
        (ll.map (List.map caseFlipByte)) n = [] := by
  induction ll with
  | nil => intro n; simp [compare_text_lines]
  | cons a ls ih =>
      intro n
      have hp := processLine_caseflip a
      simp [compare_text_lines, hp, ih]

/-- C8: comparing a file against its byte-wise case-flipped copy in
Text-ignore-case mode reports `identical` with an empty difference list
(the sizes agree, so no `SizeDiff` either); and in any mode, whenever the
two byte sizes differ the first recorded difference is always the
`SizeDiff`. -/
theorem c8_text_ignore_case (f : List Nat) :
    ((compare_files f (f.map caseFlipByte) .TextIgnoreCase).identical = true ∧
      (compare_files f (f.map caseFlipByte) .TextIgnoreCase).differences = []) ∧
    (∀ (l r : List Nat) (t : ComparisonType), l.length ≠ r.length →
      (compare_files l r t).differences.head? =
        some (Difference.SizeDiff l.length r.length)) := by
  constructor
  · have htext : compare_text f (f.map caseFlipByte) .TextIgnoreCase = [] := by
      unfold compare_text
      rw [readLines_map]
      exact compare_text_lines_caseflip (readLines f) 1
    constructor
    · simp [compare_files, htext]
    · simp [compare_files, htext]
  · intro l r t hne
    cases t <;> simp [compare_files, hne]

/-- Witness for C8 at concrete inputs: the bytes of "hi\nhi" against their
case-flipped copy compare identical ignoring case, and a 1-byte file
against an empty one records the size difference first in Binary mode. -/
theorem c8_text_ignore_case_witness :
    (compare_files [104, 105, 10, 104, 105]
        ([104, 105, 10, 104, 105].map caseFlipByte)
        .TextIgnoreCase).identical = true ∧
    (compare_files [0] [] .Binary).differences.head? =
      some (Difference.SizeDiff 1 0) := by
  exact ⟨(c8_text_ignore_case [104, 105, 10, 104, 105]).1.1,
    (c8_text_ignore_case []).2 [0] [] .Binary (by decide)⟩

/-- C9: every comparison result built by `compare_files` or
`compare_directories` has `identical` true exactly when its difference
list is empty, and `total_differences` equal to the list's length. -/
theorem c9_result_invariants (l r : List Nat) (t : ComparisonType)
    (ls rs : List TreeEntry) :
    (((compare_files l r t).identical = true ↔
        (compare_files l r t).differences = []) ∧
      (compare_files l r t).total_differences =
        (compare_files l r t).differences.length) ∧
    (((compare_directories ls rs t).identical = true ↔
        (compare_directories ls rs t).differences = []) ∧
      (compare_directories ls rs t).total_differences =
        (compare_directories ls rs t).differences.length) := by
  refine ⟨⟨?_, rfl⟩, ⟨?_, rfl⟩⟩
  · exact List.isEmpty_iff
  · exact List.isEmpty_iff

/-- An event whose path already has a last-accepted timestamp less than
`debounce_ms` ago is dropped with the whole state unchanged — in
particular the last-accepted timestamp is not updated on a dropped
event. -/
theorem processEvent_debounce_drop (globMatch : String → String → Bool)
    (fsLen : String → Option Nat) (settings : MonitoringSettings)
    (st : MonitorState) (ev : RawEvent) (last : Nat)
    (hlast : assocGet st.last_event_time (ev.paths.headD "") = some last)
    (hlt : ev.time - last < settings.debounce_ms) :
    processEvent globMatch fsLen settings st ev = st := by
  simp only [processEvent]
  split
  · rfl
  · split
    · rfl
    · split
      · rfl
      · split
        · rfl
        · simp only [hlast]
          rw [if_pos hlt]

/-- An event that passes the filter, the kind map, the kind allow-list,
the size check and the debounce window is accepted: the timestamp map and
the history are both updated. -/
theorem processEvent_accept (globMatch : String → String → Bool)
    (fsLen : String → Option Nat) (settings : MonitoringSettings)
    (st : MonitorState) (ev : RawEvent) (et : FsEventType)
    (hm : settings.filter.matches globMatch (ev.paths.headD "") = true)
    (hk : mapEventKind ev.kind = some et)
    (hc : settings.filter.event_types.contains et = true)
    (hs : sizeOk settings fsLen (ev.paths.headD "") = true)
    (hdeb : ∀ last, assocGet st.last_event_time (ev.paths.headD "") = some last →
        ¬ (ev.time - last < settings.debounce_ms)) :
    processEvent globMatch fsLen settings st ev =
      { last_event_time :=
          assocInsert st.last_event_time (ev.paths.headD "") ev.time
        history := st.history.add_event
          { event_type := et, path := ev.paths.headD "",
            timestamp := ev.time, metadata := [] } } := by
  simp only [processEvent, hm, hk, hc, hs, Bool.not_true, Bool.false_eq_true,
    if_false]
  cases hl : assocGet st.last_event_time (ev.paths.headD "") with
  | none => simp [hl]
  | some last => simp [hl, hdeb last hl]

/-- C5, counterexample.  The raw kind `Other` matches none of the known
categories; the source's `EventKind::Other => continue` discards it — it
is not translated to Metadata-change, and nothing is appended to the
history even under a filter that accepts every path and every event kind
(Metadata included). -/
theorem c5_counterexample :
    mapEventKind .other = none ∧
    mapEventKind .other ≠ some FsEventType.Metadata ∧
    processEvent noGlob (fun _ => none) permissiveSettings
      (monitorInit permissiveSettings) evOther =
      monitorInit permissiveSettings := by
  refine ⟨rfl, by decide, rfl⟩

/-- C5 (amended): the callback maps `Create`/`Modify`/`Remove`/`Access`
raw kinds to their counterparts; every `Modify` sub-kind — including
`Modify(Name)`, whose dedicated `Rename` arm is unreachable — maps to
Modify; `Other` is dropped by `continue`; no raw kind is ever translated
to Rename or Metadata-change; and a dropped (unmapped) raw kind leaves
the monitoring state, history included, unchanged. -/
theorem c5_event_kind_mapping :
    (∀ m : NotifyModifyKind,
        mapEventKind (.modify m) = some FsEventType.Modify) ∧
    mapEventKind .create = some FsEventType.Create ∧
    mapEventKind .remove = some FsEventType.Remove ∧
    mapEventKind .access = some FsEventType.Access ∧
    mapEventKind .other = none ∧
    (∀ k : NotifyEventKind, mapEventKind k ≠ some FsEventType.Rename ∧
        mapEventKind k ≠ some FsEventType.Metadata) ∧
    (∀ (globMatch : String → String → Bool) (fsLen : String → Option Nat)
        (settings : MonitoringSettings) (st : MonitorState) (ev : RawEvent),
      mapEventKind ev.kind = none →
      processEvent globMatch fsLen settings st ev = st) := by
  refine ⟨fun m => rfl, rfl, rfl, rfl, rfl, ?_, ?_⟩
  · intro k
    cases k <;> exact ⟨by simp [mapEventKind], by simp [mapEventKind]⟩
  · intro globMatch fsLen settings st ev hnone
    simp [processEvent, hnone]

/-- Witness for C5's amended theorem: an `Other` raw event leaves a
concrete non-empty monitoring state untouched. -/
theorem c5_event_kind_mapping_witness :
    processEvent noGlob (fun _ => none) permissiveSettings
      ⟨[("x", 3)], MonitoringHistory.new 10⟩ ⟨.other, ["x"], 7⟩ =
      ⟨[("x", 3)], MonitoringHistory.new 10⟩ := by
  exact c5_event_kind_mapping.2.2.2.2.2.2 noGlob (fun _ => none)
    permissiveSettings ⟨[("x", 3)], MonitoringHistory.new 10⟩
    ⟨.other, ["x"], 7⟩ rfl

/-- C6: with `debounce_ms = 100` and a filter the events pass, two raw
Modify notifications for the same path 10 ms apart yield exactly one
accepted event in the history, the same two notifications 150 ms apart
yield two, after the dropped second notification the last-accepted
timestamp map still holds the first event's time, and in general an event
dropped by the debounce window leaves the state (timestamp map included)
unchanged. -/
theorem c6_debounce_per_path (globMatch : String → String → Bool)
    (fsLen : String → Option Nat) (settings : MonitoringSettings)
    (p : String) (t : Nat) (m : NotifyModifyKind)
    (hdeb : settings.debounce_ms = 100)
    (hcap : 2 ≤ settings.max_history)
    (hm : settings.filter.matches globMatch p = true)
    (hkind : settings.filter.event_types.contains FsEventType.Modify = true)
    (hsize : sizeOk settings fsLen p = true) :
    (processEvents globMatch fsLen settings (monitorInit settings)
        [⟨.modify m, [p], t⟩, ⟨.modify m, [p], t + 10⟩]).history.events.length
      = 1 ∧
    (processEvents globMatch fsLen settings (monitorInit settings)
        [⟨.modify m, [p], t⟩, ⟨.modify m, [p], t + 150⟩]).history.events.length
      = 2 ∧
    (processEvents globMatch fsLen settings (monitorInit settings)
        [⟨.modify m, [p], t⟩, ⟨.modify m, [p], t + 10⟩]).last_event_time
      = [(p, t)] ∧
    (∀ (st : MonitorState) (ev : RawEvent) (last : Nat),
        assocGet st.last_event_time (ev.paths.headD "") = some last →
        ev.time - last < settings.debounce_ms →
        processEvent globMatch fsLen settings st ev = st) := by
  have hstep1 : processEvent globMatch fsLen settings (monitorInit settings)
      ⟨.modify m, [p], t⟩ =
      ⟨[(p, t)], (MonitoringHistory.new settings.max_history).add_event
        ⟨.Modify, p, t, []⟩⟩ := by
    have h := processEvent_accept globMatch fsLen settings
      (monitorInit settings) ⟨.modify m, [p], t⟩ .Modify hm rfl hkind hsize
      (by intro last hlast; simp [assocGet, monitorInit] at hlast)
    simpa [monitorInit, assocInsert] using h
  have hhist1 : (MonitoringHistory.new settings.max_history).add_event
      ⟨.Modify, p, t, []⟩ =
      ⟨[⟨.Modify, p, t, []⟩], settings.max_history⟩ := by
    unfold MonitoringHistory.new MonitoringHistory.add_event
    have hne : ¬ (List.length ([] : List FsEvent) ≥ settings.max_history) := by
      simp
      omega
    rw [if_neg hne]
    simp
  have hget : assocGet [(p, t)] p = some t := by
    simp [assocGet]
  refine ⟨?_, ?_, ?_, ?_⟩
  · -- 10 ms apart: second event debounce-dropped
    have hstep2 : processEvent globMatch fsLen settings
        ⟨[(p, t)], ⟨[⟨.Modify, p, t, []⟩], settings.max_history⟩⟩
        ⟨.modify m, [p], t + 10⟩ =
        ⟨[(p, t)], ⟨[⟨.Modify, p, t, []⟩], settings.max_history⟩⟩ := by
      exact processEvent_debounce_drop globMatch fsLen settings _ _ t hget
        (by simp [hdeb])
    simp [processEvents, hstep1, hhist1, hstep2]
  · -- 150 ms apart: second event accepted
    have hstep2 : processEvent globMatch fsLen settings
        ⟨[(p, t)], ⟨[⟨.Modify, p, t, []⟩], settings.max_history⟩⟩
        ⟨.modify m, [p], t + 150⟩ =
        ⟨assocInsert [(p, t)] p (t + 150),
          (⟨[⟨.Modify, p, t, []⟩], settings.max_history⟩ :
            MonitoringHistory).add_event ⟨.Modify, p, t + 150, []⟩⟩ := by
      exact processEvent_accept globMatch fsLen settings _ _ .Modify hm rfl
        hkind hsize
        (by
          intro last hlast
          have hlast2 : assocGet [(p, t)] p = some last := hlast
          rw [hget] at hlast2
          cases hlast2
          show ¬ (t + 150 - t < settings.debounce_ms)
          rw [hdeb]
          omega)
    have hhist2 : (⟨[⟨.Modify, p, t, []⟩], settings.max_history⟩ :
        MonitoringHistory).add_event ⟨.Modify, p, t + 150, []⟩ =
        ⟨[⟨.Modify, p, t, []⟩, ⟨.Modify, p, t + 150, []⟩],
          settings.max_history⟩ := by
      unfold MonitoringHistory.add_event
      have hne : ¬ (List.length [(⟨.Modify, p, t, []⟩ : FsEvent)] ≥
          settings.max_history) := by
        simp
        omega
      rw [if_neg hne]
      simp
    simp [processEvents, hstep1, hhist1, hstep2, hhist2]
  · -- the dropped event does not update the timestamp map
    have hstep2 : processEvent globMatch fsLen settings
        ⟨[(p, t)], ⟨[⟨.Modify, p, t, []⟩], settings.max_history⟩⟩
        ⟨.modify m, [p], t + 10⟩ =
        ⟨[(p, t)], ⟨[⟨.Modify, p, t, []⟩], settings.max_history⟩⟩ := by
      exact processEvent_debounce_drop globMatch fsLen settings _ _ t hget
        (by simp [hdeb])
    simp [processEvents, hstep1, hhist1, hstep2]
  · intro st ev last hlast hlt
    exact processEvent_debounce_drop globMatch fsLen settings st ev last
      hlast hlt

/-- Witness for C6 at concrete inputs: debounce 100 ms, path "f", raw
Modify events at times 0 and 10 leave one history entry; at times 0 and
150 they leave two. -/
theorem c6_debounce_per_path_witness :
    (processEvents noGlob (fun _ => none) debounceSettings
        (monitorInit debounceSettings)
        [⟨.modify .data, ["f"], 0⟩, ⟨.modify .data, ["f"], 10⟩]).history.events.length
      = 1 ∧
    (processEvents noGlob (fun _ => none) debounceSettings
        (monitorInit debounceSettings)
        [⟨.modify .data, ["f"], 0⟩, ⟨.modify .data, ["f"], 150⟩]).history.events.length
      = 2 := by
  have h := c6_debounce_per_path noGlob (fun _ => none) debounceSettings
    "f" 0 .data rfl (by decide) (by decide) (by decide) rfl
  exact ⟨h.1, h.2.1⟩

end Fvrs
